import Mathlib

/-!
Verification of the snapshot2stream frame pipeline.

The definitions below are a shallow embedding of the Go sources:
`internal/frame/frame.go` (ring-buffer cache, fetch/read operations),
`internal/model/frame.go` together with the `utils` package and `main.go`
(the JPEG validator `isValidJPEG`), and the streaming loops of `main.go`
(`streamCameraFromCache` / `streamCameraDirect`). Byte buffers are lists
of naturals, Go `time.Time` is an abstract natural-number timestamp, and
the mutex-guarded mutation of the cache becomes explicit state passing.
-/

/-- A cached camera frame (`model.Frame`): a timestamp and an owned byte
buffer. -/
structure Frame where
  Timestamp : Nat
  Data : List Nat
deriving DecidableEq, Repr

/-- The per-camera ring buffer (`CameraCache` in `frame.go`): a slice of
optional frames (Go slice of nil-able pointers), a write cursor, a read
cursor and the fixed size. -/
structure CameraCache where
  frames : List (Option Frame)
  writeIndex : Nat
  readIndex : Nat
  size : Nat
deriving DecidableEq, Repr

/-- `NewCameraCache`: an all-nil slice of the given size, both cursors 0. -/
def NewCameraCache (size : Nat) : CameraCache :=
  { frames := List.replicate size none, writeIndex := 0, readIndex := 0, size := size }

/-- The locked cache-update region of `FetchFrame` (frame.go lines 91-101):
store the new frame at `writeIndex` and advance `writeIndex` by one mod
`size`. -/
def writeFrame (c : CameraCache) (f : Frame) : CameraCache :=
  { c with frames := c.frames.set c.writeIndex (some f),
           writeIndex := (c.writeIndex + 1) % c.size }

/-- The body of `GetLatestFrame` once the cache is in hand (frame.go lines
111-116): read slot `(writeIndex - 1 + size) % size`.  Go computes
`(writeIndex-1+size)%size` on `int`; for the natural-number cursors of the
embedding this is `(writeIndex + size - 1) % size`, which agrees with the Go
expression whenever `writeIndex ≥ 0`. -/
def getLatestCache (c : CameraCache) : Option Frame :=
  c.frames.getD ((c.writeIndex + c.size - 1) % c.size) none

/-- The body of `GetNextFrame` once the cache is in hand (frame.go lines
126-138): if the reader has caught up to the writer, return the latest frame
and leave `readIndex` alone; otherwise return slot `readIndex` and advance it
by one mod `size`.  Returns the frame together with the updated cache. -/
def getNextCache (c : CameraCache) : Option Frame × CameraCache :=
  if c.readIndex = c.writeIndex then
    (c.frames.getD ((c.writeIndex + c.size - 1) % c.size) none, c)
  else
    (c.frames.getD c.readIndex none,
     { c with readIndex := (c.readIndex + 1) % c.size })

/-- `FrameManager.Caches`: the map from camera name to cache, embedded as an
association list. -/
structure FrameManager where
  Caches : List (String × CameraCache)
deriving DecidableEq, Repr

/-- Go map read `fm.Caches[cameraName]` with its `exists` flag. -/
def lookupCache (fm : FrameManager) (name : String) : Option CameraCache :=
  List.lookup name fm.Caches

/-- Replacing the cache stored under `name` (the effect, through the shared
pointer, of mutating the looked-up cache). -/
def setCache (fm : FrameManager) (name : String) (c : CameraCache) : FrameManager :=
  { Caches := fm.Caches.map (fun p => if p.1 = name then (p.1, c) else p) }

/-- `FrameManager.GetLatestFrame` (frame.go lines 105-117): nil when the
camera is not registered, otherwise the latest slot of its cache. -/
def GetLatestFrame (fm : FrameManager) (name : String) : Option Frame :=
  match lookupCache fm name with
  | none => none
  | some cache => getLatestCache cache

/-- `FrameManager.GetNextFrame` (frame.go lines 120-139): nil and no state
change when the camera is not registered, otherwise the cache-level read
with the mutated cache written back. -/
def GetNextFrame (fm : FrameManager) (name : String) : Option Frame × FrameManager :=
  match lookupCache fm name with
  | none => (none, fm)
  | some cache =>
    ((getNextCache cache).1, setCache fm name (getNextCache cache).2)

/-- `isValidJPEG` (`main.go` lines 268-285, identical to `utils.IsValidJPEG`):
reject buffers shorter than 10 bytes, then check the SOI marker `FF D8` at the
front, the EOI marker `FF D9` at the back, and finally reject buffers shorter
than 1000 bytes. -/
def isValidJPEG (data : List Nat) : Bool :=
  if data.length < 10 then false
  else if ¬ (data.getD 0 0 = 0xFF ∧ data.getD 1 0 = 0xD8) then false
  else if ¬ (data.getD (data.length - 2) 0 = 0xFF ∧ data.getD (data.length - 1) 0 = 0xD9) then false
  else if data.length < 1000 then false
  else true

/-- The outcome of `fm.Client.GetStream(cameraURL)`: either a transport
error or a response with a status code and a body. -/
inductive FetchResult where
  | transportError
  | response (statusCode : Nat) (body : List Nat)
deriving DecidableEq, Repr

/-- `FrameManager.FetchFrame` (frame.go lines 62-102), with the fetch outcome
and the clock reading passed in.  Every early return leaves the manager
unchanged.  On the success path Go reads `fm.Caches[cameraName]` unguarded:
for a missing camera the zero-value pointer is dereferenced
(`cache.mu.Lock()` panics), embedded as `none`. -/
def FetchFrame (fm : FrameManager) (name : String) (resp : FetchResult) (now : Nat) :
    Option FrameManager :=
  match resp with
  | .transportError => some fm
  | .response statusCode body =>
    if ¬ statusCode = 200 then some fm
    else if body.length = 0 then some fm
    else if ¬ isValidJPEG body = true then some fm
    else
      match lookupCache fm name with
      | none => none
      | some cache => some (setCache fm name (writeFrame cache { Timestamp := now, Data := body }))

/-- A single camera-cache operation: a successful-fetch write, a streaming
read (`GetNextFrame`), or a latest-frame read (`GetLatestFrame`, which does
not change the state). -/
inductive CacheOp where
  | write (f : Frame)
  | readNext
  | readLatest
deriving DecidableEq, Repr

/-- The state transition of one operation. -/
def applyOp (c : CameraCache) (o : CacheOp) : CameraCache :=
  match o with
  | .write f => writeFrame c f
  | .readNext => (getNextCache c).2
  | .readLatest => c

/-- Run a sequence of operations. -/
def run (c : CameraCache) (ops : List CacheOp) : CameraCache :=
  ops.foldl applyOp c

/-- The value an operation returns to its caller (writes return nothing). -/
def opOutput (c : CameraCache) (o : CacheOp) : Option Frame :=
  match o with
  | .write _ => none
  | .readNext => (getNextCache c).1
  | .readLatest => getLatestCache c

/-- The values returned along a run of operations. -/
def runOutputs (c : CameraCache) : List CacheOp → List (Option Frame)
  | [] => []
  | o :: rest => opOutput c o :: runOutputs (applyOp c o) rest

/-- The frames carried by the write operations of a sequence, in order. -/
def writtenFrames : List CacheOp → List Frame
  | [] => []
  | CacheOp.write f :: rest => f :: writtenFrames rest
  | CacheOp.readNext :: rest => writtenFrames rest
  | CacheOp.readLatest :: rest => writtenFrames rest

/-- Writing a list of frames in order (repeated successful fetches). -/
def writeMany (c : CameraCache) (l : List Frame) : CameraCache :=
  l.foldl writeFrame c

/-- Cursor sanity of a cache state. -/
def Valid (c : CameraCache) : Prop :=
  c.frames.length = c.size ∧ c.writeIndex < c.size ∧ c.readIndex < c.size

instance (c : CameraCache) : Decidable (Valid c) := by
  unfold Valid; infer_instance

/-- Number of written-but-unread slots between the cursors. -/
def distance (c : CameraCache) : Nat :=
  (c.writeIndex + c.size - c.readIndex) % c.size

/-- Iterate the state change of `GetNextFrame`. -/
def iterNext : Nat → CameraCache → CameraCache
  | 0, c => c
  | k + 1, c => iterNext k (getNextCache c).2

/-- The bytes of an ASCII string literal as written to the client. -/
def strBytes (s : String) : List Nat :=
  s.data.map (fun ch => ch.toNat)

/-- The `headerBuf` built in `streamCameraFromCache` / `streamCameraDirect`
(main.go lines 239-242 and 348-351): boundary plus headers, the decimal
rendering of the payload length (`fmt.Sprintf` with the decimal verb), and
the blank line. -/
def headerBuf (d : List Nat) : List Nat :=
  (strBytes ("--frame\r\nContent-Type: image/jpeg\r\nContent-Length: "))
    ++ (strBytes (Nat.repr d.length)) ++ (strBytes ("\r\n\r\n"))

/-- The three checked `w.Write` calls for one frame (main.go lines 245-258
and 354-367): header buffer, payload, trailing CRLF.  Each `okᵢ` says whether
the corresponding physical write succeeds; the first failure stops the
emission, returning the transcript written so far and `false`. -/
def emitFrame (t d : List Nat) (ok1 ok2 ok3 : Bool) : List Nat × Bool :=
  if ok1 = false then (t, false)
  else
    if ok2 = false then (t ++ headerBuf d, false)
    else
      if ok3 = false then (t ++ headerBuf d ++ d, false)
      else (t ++ headerBuf d ++ d ++ (strBytes ("\r\n")), true)

/-- Modelled from the spec (claim C9's wording): one multipart part is the
concatenation of the boundary line, the content-type header, a
content-length header holding the decimal byte length of the payload, a
blank line, the payload, and a trailing CRLF. -/
def specFramePart (d : List Nat) : List Nat :=
  (strBytes ("--frame\r\nContent-Type: image/jpeg\r\nContent-Length: "))
    ++ (strBytes (Nat.repr d.length)) ++ (strBytes ("\r\n\r\n"))
    ++ d ++ (strBytes ("\r\n"))

/-- The per-iteration environment of the cached streaming loop: whether the
client-disconnect signal has fired, and whether each of the three physical
writes of this iteration would succeed. -/
structure LoopInput where
  ctxDone : Bool
  ok1 : Bool
  ok2 : Bool
  ok3 : Bool
deriving DecidableEq, Repr

/-- The loop of `streamCameraFromCache` (main.go lines 221-264), one
`LoopInput` per iteration, returning the full transcript written to the
client sink.  A fired disconnect signal returns; a nil frame sleeps and
retries; a write failure returns; otherwise the iteration appends one
multipart part and continues. -/
def streamLoop (fm : FrameManager) (name : String) (t : List Nat) :
    List LoopInput → List Nat
  | [] => t
  | inp :: rest =>
    if inp.ctxDone = true then t
    else
      match GetNextFrame fm name with
      | (none, fm2) => streamLoop fm2 name t rest
      | (some f, fm2) =>
        if (emitFrame t f.Data inp.ok1 inp.ok2 inp.ok3).2 = false then
          (emitFrame t f.Data inp.ok1 inp.ok2 inp.ok3).1
        else
          streamLoop fm2 name (emitFrame t f.Data inp.ok1 inp.ok2 inp.ok3).1 rest

/-- The behaviour claimed for `GetNextFrame` on one cache: at the caught-up
position it returns the latest frame and leaves the state alone; otherwise it
returns slot `readIndex` and advances the cursor; and once at least
`distance c` reads have drained the unread frames, the cursor sits on
`writeIndex` and every further read returns the latest frame with no state
change. -/
def ReadNextContract (c : CameraCache) : Prop :=
  (c.readIndex = c.writeIndex → getNextCache c = (getLatestCache c, c)) ∧
  (¬ c.readIndex = c.writeIndex →
    getNextCache c =
      (c.frames.getD c.readIndex none,
       { c with readIndex := (c.readIndex + 1) % c.size })) ∧
  (∀ k, distance c ≤ k →
    (iterNext k c).readIndex = (iterNext k c).writeIndex ∧
    getNextCache (iterNext k c) = (getLatestCache c, iterNext k c))

/-- A small concrete cache state (two frames written into a capacity-3 ring,
nothing read yet) used to instantiate hypotheses of the proved contracts. -/
def cacheA : CameraCache :=
  { frames := [some { Timestamp := 1, Data := [1] }, some { Timestamp := 2, Data := [2] }, none],
    writeIndex := 2, readIndex := 0, size := 3 }

/-- A family of pairwise-distinct concrete frames for instantiating the
ordered-write properties. -/
def gFrames (i : Nat) : Frame :=
  { Timestamp := i, Data := [i] }

/-- The inductive invariant tying a reachable cache state to the list `W` of
frames written so far: the slice length is the capacity, `writeIndex` is the
write count mod capacity, the read cursor is in range (and, before the ring
first fills, at most the write count), the slots holding nil are exactly
those from `min |W| size` on (writes fill slots in order, wrapping), and
every stored frame is one of the written ones. -/
def InvC (c : CameraCache) (W : List Frame) : Prop :=
  0 < c.size ∧
  c.frames.length = c.size ∧
  c.writeIndex = W.length % c.size ∧
  c.readIndex < c.size ∧
  (W.length < c.size → c.readIndex ≤ W.length) ∧
  (∀ i, i < c.size → (c.frames.getD i none = none ↔ min W.length c.size ≤ i)) ∧
  (∀ i f, c.frames.getD i none = some f → f ∈ W)

/-- The cursor behaviour claimed for every reachable state (claim C7): both
cursors stay inside `[0, N)`, a successful-fetch write advances `writeIndex`
by exactly one mod `N` and does not touch `readIndex`, and `GetNextFrame`
advances `readIndex` by exactly one mod `N` except when the reader has caught
up to the writer, in which case the state is unchanged. -/
def CursorContract (c : CameraCache) (N : Nat) : Prop :=
  (c.size = N ∧ c.writeIndex < N ∧ c.readIndex < N) ∧
  (∀ f, (writeFrame c f).writeIndex = (c.writeIndex + 1) % N ∧
        (writeFrame c f).readIndex = c.readIndex ∧
        (writeFrame c f).size = N) ∧
  (¬ c.readIndex = c.writeIndex →
    ((getNextCache c).2).readIndex = (c.readIndex + 1) % N ∧
    ((getNextCache c).2).writeIndex = c.writeIndex) ∧
  (c.readIndex = c.writeIndex → (getNextCache c).2 = c)

/-- The read-nil behaviour claimed for every reachable state (claim C3):
both read accessors return nil exactly when no write has ever occurred, and
any frame they return was previously written and has non-empty data. -/
def NilIffNeverWritten (c : CameraCache) (ops : List CacheOp) : Prop :=
  (getLatestCache c = none ↔ writtenFrames ops = []) ∧
  ((getNextCache c).1 = none ↔ writtenFrames ops = []) ∧
  (∀ f, getLatestCache c = some f → f ∈ writtenFrames ops ∧ ¬ f.Data.length = 0) ∧
  (∀ f, (getNextCache c).1 = some f → f ∈ writtenFrames ops ∧ ¬ f.Data.length = 0)

/-- A small concrete operation sequence (one write, one streaming read). -/
def opsA : List CacheOp :=
  [CacheOp.write (gFrames 0), CacheOp.readNext]

/-- A concrete 1000-byte buffer with the JPEG start and end markers. -/
def vbytes : List Nat :=
  0xFF :: 0xD8 :: (List.replicate 996 0 ++ [0xFF, 0xD9])

/-- A concrete frame whose data passes the validator. -/
def vFrame : Frame :=
  { Timestamp := 0, Data := vbytes }

/-- A concrete operation sequence whose single written frame is valid. -/
def opsB : List CacheOp :=
  [CacheOp.write vFrame, CacheOp.readNext]

/-- A concrete operation sequence containing no writes. -/
def opsC : List CacheOp :=
  [CacheOp.readNext, CacheOp.readLatest]

/-- The frame `v` is stored in no slot of the cache. -/
def NotStored (c : CameraCache) (v : Frame) : Prop :=
  ¬ some v ∈ c.frames

/-- The atomicity claimed for one `FetchFrame` tick (claim C4): a transport
error, a non-200 status, an empty body, or a validator-rejected body leaves
the manager — all slots and both cursors — completely unchanged; a validated
200 response with the camera registered stores exactly one frame (the body
with the tick's timestamp) at `writeIndex` and advances `writeIndex` by one
mod the capacity, leaving `readIndex`, the size and all other slots as they
were. -/
def FetchFrameContract (fm : FrameManager) (name : String) (now : Nat) : Prop :=
  (FetchFrame fm name FetchResult.transportError now = some fm) ∧
  (∀ st body, ¬ st = 200 →
    FetchFrame fm name (FetchResult.response st body) now = some fm) ∧
  (∀ st, FetchFrame fm name (FetchResult.response st []) now = some fm) ∧
  (∀ st body, isValidJPEG body = false →
    FetchFrame fm name (FetchResult.response st body) now = some fm) ∧
  (∀ body cache, isValidJPEG body = true → lookupCache fm name = some cache →
    FetchFrame fm name (FetchResult.response 200 body) now =
      some (setCache fm name
        { frames := cache.frames.set cache.writeIndex
            (some { Timestamp := now, Data := body }),
          writeIndex := (cache.writeIndex + 1) % cache.size,
          readIndex := cache.readIndex,
          size := cache.size }))

/-- The totality split claimed for the accessors (claim C10): for a camera
name absent from the cache map, both read accessors are total, return nil and
leave the manager untouched, while `FetchFrame` on a validated 200 response
reaches the unguarded map access and faults (`none`); for a registered
camera, `FetchFrame` is total on every fetch outcome. -/
def UnregisteredContract (fm : FrameManager) (name : String) : Prop :=
  (lookupCache fm name = none →
    GetLatestFrame fm name = none ∧
    GetNextFrame fm name = (none, fm) ∧
    (∀ body now, isValidJPEG body = true →
      FetchFrame fm name (FetchResult.response 200 body) now = none)) ∧
  (∀ resp now cache, lookupCache fm name = some cache →
    ∃ fm2, FetchFrame fm name resp now = some fm2)

/-- What actually holds in place of per-reader cursors (amended claim C6):
the cache has one shared read cursor, so a `GetNextFrame` issued by one
stream server advances it for everyone, and the next `GetNextFrame` — by
whichever server — returns the slot after the one just consumed. -/
def SharedCursorContract (c : CameraCache) : Prop :=
  ((getNextCache c).2).readIndex = (c.readIndex + 1) % c.size ∧
  (¬ (c.readIndex + 1) % c.size = c.writeIndex →
    (getNextCache ((getNextCache c).2)).1 =
      c.frames.getD ((c.readIndex + 1) % c.size) none)

/-- A concrete cache state reached by two writes into a fresh capacity-3
ring. -/
def cacheB : CameraCache :=
  run (NewCameraCache 3) [CacheOp.write (gFrames 0), CacheOp.write (gFrames 1)]

/-- A concrete manager with one registered camera and an empty cache. -/
def fmB : FrameManager :=
  { Caches := [("rua", NewCameraCache 2)] }

/-- A concrete manager with no registered cameras. -/
def fmE : FrameManager :=
  { Caches := [] }

/-- A concrete manager whose registered camera has frames to read. -/
def fmC : FrameManager :=
  { Caches := [("rua", cacheA)] }

/-- A loop iteration whose second physical write fails. -/
def inpFail : LoopInput :=
  { ctxDone := false, ok1 := true, ok2 := false, ok3 := true }

/-- A loop iteration with all writes succeeding. -/
def inpOk : LoopInput :=
  { ctxDone := false, ok1 := true, ok2 := true, ok3 := true }

theorem getNext_caughtUp (c : CameraCache) (h : c.readIndex = c.writeIndex) :
    getNextCache c = (getLatestCache c, c) := by
  unfold getNextCache getLatestCache
  rw [if_pos h]

theorem getNext_notCaught (c : CameraCache) (h : ¬ c.readIndex = c.writeIndex) :
    getNextCache c =
      (c.frames.getD c.readIndex none,
       { c with readIndex := (c.readIndex + 1) % c.size }) := by
  unfold getNextCache
  rw [if_neg h]

theorem modDist (w r s : Nat) (hw : w < s) (hr : r < s) :
    (w + s - r) % s = if r ≤ w then w - r else w + s - r := by
  split_ifs with h
  · have e : w + s - r = (w - r) + s := by omega
    rw [e, Nat.add_mod_right]
    exact Nat.mod_eq_of_lt (by omega)
  · exact Nat.mod_eq_of_lt (by omega)

theorem distance_zero (c : CameraCache) (hv : Valid c) (h : distance c = 0) :
    c.readIndex = c.writeIndex := by
  obtain ⟨-, hw, hr⟩ := hv
  unfold distance at h
  rw [modDist _ _ _ hw hr] at h
  split_ifs at h <;> omega

theorem distance_of_eq (c : CameraCache) (hs : 0 < c.size)
    (h : c.readIndex = c.writeIndex) : distance c = 0 := by
  unfold distance
  rw [h]
  have e : c.writeIndex + c.size - c.writeIndex = c.size := by omega
  rw [e, Nat.mod_self]

theorem distance_step (c : CameraCache) (hv : Valid c)
    (h : ¬ c.readIndex = c.writeIndex) :
    distance { c with readIndex := (c.readIndex + 1) % c.size } = distance c - 1 := by
  obtain ⟨-, hw, hr⟩ := hv
  unfold distance
  simp only
  by_cases hrs : c.readIndex + 1 = c.size
  · have e1 : (c.readIndex + 1) % c.size = 0 := by rw [hrs, Nat.mod_self]
    rw [e1, Nat.sub_zero, Nat.add_mod_right, Nat.mod_eq_of_lt hw, modDist _ _ _ hw hr]
    split_ifs <;> omega
  · have e1 : (c.readIndex + 1) % c.size = c.readIndex + 1 := Nat.mod_eq_of_lt (by omega)
    rw [e1, modDist _ _ _ hw (by omega), modDist _ _ _ hw hr]
    split_ifs <;> omega

theorem iterNext_drain (k : Nat) :
    ∀ c : CameraCache, Valid c → distance c ≤ k →
      iterNext k c = { c with readIndex := c.writeIndex } := by
  induction k with
  | zero =>
    intro c hv hd
    have h := distance_zero c hv (Nat.le_zero.mp hd)
    cases c
    simp only at h
    simp [iterNext, h]
  | succ k ih =>
    intro c hv hd
    show iterNext k (getNextCache c).2 = _
    by_cases h : c.readIndex = c.writeIndex
    · rw [getNext_caughtUp c h]
      have hs : 0 < c.size := Nat.lt_of_le_of_lt (Nat.zero_le _) hv.2.1
      have hz : distance c = 0 := distance_of_eq c hs h
      exact ih c hv (by omega)
    · rw [getNext_notCaught c h]
      have hs : 0 < c.size := lt_of_le_of_lt (Nat.zero_le _) hv.2.1
      have hv2 : Valid { c with readIndex := (c.readIndex + 1) % c.size } :=
        ⟨hv.1, hv.2.1, Nat.mod_lt _ hs⟩
      have hd2 : distance { c with readIndex := (c.readIndex + 1) % c.size } ≤ k := by
        rw [distance_step c hv h]
        have : ¬ distance c = 0 := fun hz => h (distance_zero c hv hz)
        omega
      rw [ih _ hv2 hd2]

/-- C5: the frame validator accepts exactly the buffers of length at least
1000 whose first two bytes are `FF D8` and whose last two bytes are `FF D9`;
in the embedding it is a pure function of the buffer. -/
theorem isValidJPEG_iff (b : List Nat) :
    isValidJPEG b = true ↔
      (1000 ≤ b.length ∧ b.getD 0 0 = 0xFF ∧ b.getD 1 0 = 0xD8 ∧
        b.getD (b.length - 2) 0 = 0xFF ∧ b.getD (b.length - 1) 0 = 0xD9) := by
  constructor
  · intro h
    unfold isValidJPEG at h
    by_cases h10 : b.length < 10
    · rw [if_pos h10] at h; simp at h
    rw [if_neg h10] at h
    by_cases hsoi : b.getD 0 0 = 0xFF ∧ b.getD 1 0 = 0xD8
    case neg => rw [if_pos hsoi] at h; simp at h
    rw [if_neg (not_not_intro hsoi)] at h
    by_cases heoi : b.getD (b.length - 2) 0 = 0xFF ∧ b.getD (b.length - 1) 0 = 0xD9
    case neg => rw [if_pos heoi] at h; simp at h
    rw [if_neg (not_not_intro heoi)] at h
    by_cases hlen : b.length < 1000
    · rw [if_pos hlen] at h; simp at h
    · exact ⟨by omega, hsoi.1, hsoi.2, heoi.1, heoi.2⟩
  · rintro ⟨h1000, h1, h2, h3, h4⟩
    unfold isValidJPEG
    rw [if_neg (by omega), if_neg (not_not_intro ⟨h1, h2⟩), if_neg (not_not_intro ⟨h3, h4⟩),
      if_neg (by omega)]

/-- C1: `GetNextFrame` returns the same value as `GetLatestFrame` and leaves
`readIndex` unchanged when the reader has caught up to the writer, and
otherwise returns slot `readIndex` and advances it to `(readIndex+1) mod N`;
consequently repeated calls with no interleaved writes fall back to returning
the latest frame once the reader has drained all previously-written, unread
frames. -/
theorem readNext_contract (c : CameraCache) (hv : Valid c) : ReadNextContract c := by
  refine ⟨getNext_caughtUp c, getNext_notCaught c, ?_⟩
  intro k hk
  rw [iterNext_drain k c hv hk]
  refine ⟨rfl, ?_⟩
  rw [getNext_caughtUp _ rfl]
  rfl

/-- The C1 contract holds at the concrete state `cacheA`. -/
theorem readNext_contract_witness : Valid cacheA ∧ ReadNextContract cacheA :=
  ⟨by decide, readNext_contract cacheA (by decide)⟩

theorem writeMany_fresh (N : Nat) :
    ∀ l : List Frame, l.length ≤ N →
      writeMany (NewCameraCache N) l =
        { frames := l.map some ++ List.replicate (N - l.length) none,
          writeIndex := l.length % N, readIndex := 0, size := N } := by
  intro l
  induction l using List.reverseRecOn with
  | nil =>
    intro _
    simp [writeMany, NewCameraCache]
  | append_singleton l x ih =>
    intro hlen
    have hm : l.length < N := by
      simp only [List.length_append, List.length_cons, List.length_nil] at hlen
      omega
    show writeMany (NewCameraCache N) (l ++ [x]) = _
    rw [writeMany, List.foldl_append]
    have e2 : List.foldl writeFrame (List.foldl writeFrame (NewCameraCache N) l) [x] =
        writeFrame (writeMany (NewCameraCache N) l) x := rfl
    rw [e2, ih (Nat.le_of_lt hm)]
    unfold writeFrame
    have e0 : l.length % N = l.length := Nat.mod_eq_of_lt hm
    have e1 : N - l.length = (N - (l.length + 1)) + 1 := by omega
    simp only [e0, CameraCache.mk.injEq]
    refine ⟨?_, ?_, trivial, trivial⟩
    · rw [List.set_append, if_neg (by simp), List.length_map, Nat.sub_self, e1,
        List.replicate_succ]
      simp [List.map_append, List.length_append]
    · simp [List.length_append]

/-- C2: starting from a fresh cache of capacity `N ≥ 1`, after writing
exactly `k` frames in order (`1 ≤ k ≤ N`), `GetLatestFrame` returns the
`k`-th written frame. -/
theorem readLatest_kth_write (N k : Nat) (g : Nat → Frame) (hN : 1 ≤ N) (hk1 : 1 ≤ k)
    (hkN : k ≤ N) :
    getLatestCache (writeMany (NewCameraCache N) ((List.range k).map g)) =
      some (g (k - 1)) := by
  rw [writeMany_fresh N _ (by simp [hkN])]
  unfold getLatestCache
  simp only [List.length_map, List.length_range]
  have hidx : (k % N + N - 1) % N = k - 1 := by
    by_cases h : k = N
    · subst h
      rw [Nat.mod_self, Nat.zero_add]
      exact Nat.mod_eq_of_lt (by omega)
    · have hkN2 : k < N := by omega
      rw [Nat.mod_eq_of_lt hkN2]
      have e : k + N - 1 = (k - 1) + N := by omega
      rw [e, Nat.add_mod_right]
      exact Nat.mod_eq_of_lt (by omega)
  rw [hidx, List.getD_eq_getElem?_getD, List.getElem?_append]
  rw [if_pos (by simp; omega)]
  rw [List.getElem?_map, List.getElem?_map, List.getElem?_range (show k - 1 < k by omega)]
  rfl

/-- The C2 statement holds at capacity 3 with two written frames. -/
theorem readLatest_kth_write_witness :
    1 ≤ 3 ∧ 1 ≤ 2 ∧ 2 ≤ 3 ∧
      getLatestCache (writeMany (NewCameraCache 3) ((List.range 2).map gFrames)) =
        some (gFrames 1) :=
  ⟨by decide, by decide, by decide,
    readLatest_kth_write 3 2 gFrames (by decide) (by decide) (by decide)⟩

theorem run_size (ops : List CacheOp) :
    ∀ c : CameraCache, (run c ops).size = c.size := by
  induction ops with
  | nil => intro c; rfl
  | cons o rest ih =>
    intro c
    show (run (applyOp c o) rest).size = c.size
    rw [ih]
    cases o with
    | write f => rfl
    | readNext =>
      show ((getNextCache c).2).size = c.size
      by_cases h : c.readIndex = c.writeIndex
      · rw [getNext_caughtUp c h]
      · rw [getNext_notCaught c h]
    | readLatest => rfl

theorem length_of_isValidJPEG {b : List Nat} (h : isValidJPEG b = true) :
    1000 ≤ b.length := by
  by_contra hl
  push_neg at hl
  unfold isValidJPEG at h
  split_ifs at h

theorem inv_init (N : Nat) (hN : 0 < N) : InvC (NewCameraCache N) [] := by
  unfold InvC NewCameraCache
  dsimp only
  refine ⟨hN, by simp, by simp, hN, fun _ => Nat.le_refl 0, ?_, ?_⟩
  · intro i hi
    rw [List.getD_eq_getElem?_getD, List.getElem?_replicate]
    constructor
    · intro _; simp
    · intro _
      by_cases h : i < N <;> simp [h]
  · intro i f hf
    exfalso
    rw [List.getD_eq_getElem?_getD, List.getElem?_replicate] at hf
    by_cases h : i < N <;> simp [h] at hf

theorem inv_write (c : CameraCache) (W : List Frame) (f : Frame) (h : InvC c W) :
    InvC (writeFrame c f) (W ++ [f]) := by
  obtain ⟨hs, hlen, hw, hr, hrw, hslots, hmem⟩ := h
  have hwlt : c.writeIndex < c.size := by rw [hw]; exact Nat.mod_lt _ hs
  unfold InvC writeFrame
  dsimp only
  simp only [List.length_append, List.length_cons, List.length_nil]
  refine ⟨hs, ?_, ?_, hr, ?_, ?_, ?_⟩
  · rw [List.length_set]; exact hlen
  · rw [hw, Nat.mod_add_mod]
  · intro hlt
    have := hrw (by omega)
    omega
  · intro i hi
    rw [List.getD_eq_getElem?_getD, List.getElem?_set]
    by_cases hiw : c.writeIndex = i
    · rw [if_pos hiw, if_pos (by rw [hlen]; exact hwlt)]
      constructor
      · intro hcon; exact absurd hcon (by simp)
      · intro hmin
        exfalso
        have h1 : W.length % c.size ≤ W.length := Nat.mod_le _ _
        rw [hw] at hiw hwlt
        omega
    · rw [if_neg hiw, ← List.getD_eq_getElem?_getD, hslots i hi]
      by_cases hms : W.length < c.size
      · have e : W.length % c.size = W.length := Nat.mod_eq_of_lt hms
        rw [hw, e] at hiw
        omega
      · omega
  · intro i f' hsf
    rw [List.getD_eq_getElem?_getD, List.getElem?_set] at hsf
    by_cases hiw : c.writeIndex = i
    · rw [if_pos hiw, if_pos (by rw [hlen]; exact hwlt)] at hsf
      simp only [Option.getD_some, Option.some.injEq] at hsf
      rw [← hsf]
      exact List.mem_append_right _ (by simp)
    · rw [if_neg hiw, ← List.getD_eq_getElem?_getD] at hsf
      exact List.mem_append_left _ (hmem i f' hsf)

theorem inv_readNext (c : CameraCache) (W : List Frame) (h : InvC c W) :
    InvC ((getNextCache c).2) W := by
  by_cases hcw : c.readIndex = c.writeIndex
  · rw [getNext_caughtUp c hcw]; exact h
  · rw [getNext_notCaught c hcw]
    obtain ⟨hs, hlen, hw, hr, hrw, hslots, hmem⟩ := h
    unfold InvC
    dsimp only
    refine ⟨hs, hlen, hw, Nat.mod_lt _ hs, ?_, hslots, hmem⟩
    intro hms
    have h1 := hrw hms
    have e : W.length % c.size = W.length := Nat.mod_eq_of_lt hms
    rw [hw, e] at hcw
    rw [Nat.mod_eq_of_lt (by omega)]
    omega

theorem inv_run (ops : List CacheOp) :
    ∀ (c : CameraCache) (W : List Frame), InvC c W →
      InvC (run c ops) (W ++ writtenFrames ops) := by
  induction ops with
  | nil =>
    intro c W h
    show InvC c (W ++ writtenFrames [])
    simpa [writtenFrames] using h
  | cons o rest ih =>
    intro c W h
    show InvC (run (applyOp c o) rest) _
    cases o with
    | write f =>
      have h2 := ih (writeFrame c f) (W ++ [f]) (inv_write c W f h)
      simpa [writtenFrames, List.append_assoc] using h2
    | readNext =>
      have h2 := ih ((getNextCache c).2) W (inv_readNext c W h)
      simpa [writtenFrames] using h2
    | readLatest =>
      have h2 := ih c W h
      simpa [writtenFrames] using h2

theorem latest_slot_lt_min (s m : Nat) (hs : 0 < s) (hm : 0 < m) :
    (m % s + s - 1) % s < min m s := by
  by_cases hms : m < s
  · have e : m % s = m := Nat.mod_eq_of_lt hms
    rw [e]
    have e3 : m + s - 1 = (m - 1) + s := by omega
    rw [e3, Nat.add_mod_right, Nat.mod_eq_of_lt (by omega)]
    omega
  · have h1 : (m % s + s - 1) % s < s := Nat.mod_lt _ hs
    omega

theorem latest_slot_zero (s : Nat) (hs : 0 < s) : (0 % s + s - 1) % s = s - 1 := by
  rw [Nat.zero_mod, Nat.zero_add, Nat.mod_eq_of_lt (by omega)]

/-- C7: in every state reachable by writes and reads from a fresh capacity-N
cache, both cursors lie in `[0, N)`; a successful-fetch write advances
`writeIndex` by exactly one mod N without touching `readIndex`, and
`GetNextFrame` advances `readIndex` by exactly one mod N except when the
reader has caught up to the writer, in which case nothing changes. -/
theorem cursor_invariant (N : Nat) (hN : 1 ≤ N) (ops : List CacheOp) :
    CursorContract (run (NewCameraCache N) ops) N := by
  have hsz : (run (NewCameraCache N) ops).size = N := by
    rw [run_size]
    rfl
  have hinv := inv_run ops (NewCameraCache N) [] (inv_init N hN)
  obtain ⟨hs, hlen, hw, hr, hrw, hslots, hmem⟩ := hinv
  set c := run (NewCameraCache N) ops with hc
  have hwlt : c.writeIndex < c.size := by rw [hw]; exact Nat.mod_lt _ hs
  refine ⟨⟨hsz, by rw [← hsz]; exact hwlt, by rw [← hsz]; exact hr⟩, ?_, ?_, ?_⟩
  · intro f
    unfold writeFrame
    dsimp only
    exact ⟨by rw [hsz], rfl, hsz⟩
  · intro hne
    rw [getNext_notCaught c hne]
    dsimp only
    exact ⟨by rw [hsz], rfl⟩
  · intro heq
    rw [getNext_caughtUp c heq]

/-- The C7 contract at capacity 3 after one write and one read. -/
theorem cursor_invariant_witness :
    1 ≤ 3 ∧ CursorContract (run (NewCameraCache 3) opsA) 3 :=
  ⟨by decide, cursor_invariant 3 (by decide) opsA⟩

/-- C3: in every reachable state, `GetLatestFrame` and `GetNextFrame` return
nil exactly when no write has ever occurred, and every frame they do return
was previously written by a successful fetch — in particular (writes being
validator-approved) it is never a zero-length frame. -/
theorem reads_nil_iff_no_write (N : Nat) (hN : 1 ≤ N) (ops : List CacheOp)
    (hval : ∀ f ∈ writtenFrames ops, isValidJPEG f.Data = true) :
    NilIffNeverWritten (run (NewCameraCache N) ops) ops := by
  have hinv := inv_run ops (NewCameraCache N) [] (inv_init N hN)
  rw [List.nil_append] at hinv
  obtain ⟨hs, hlen, hw, hr, hrw, hslots, hmem⟩ := hinv
  set c := run (NewCameraCache N) ops with hc
  set W := writtenFrames ops with hW
  have hgl : getLatestCache c =
      c.frames.getD ((W.length % c.size + c.size - 1) % c.size) none := by
    unfold getLatestCache
    rw [hw]
  have hdata : ∀ f ∈ W, ¬ f.Data.length = 0 := by
    intro f hf
    have := length_of_isValidJPEG (hval f hf)
    omega
  have hA : (getLatestCache c = none ↔ W = []) ∧
      (∀ f, getLatestCache c = some f → f ∈ W) := by
    by_cases hW0 : W = []
    · have hm0 : W.length = 0 := by rw [hW0]; rfl
      have hnone : getLatestCache c = none := by
        rw [hgl, hm0, latest_slot_zero c.size hs]
        exact (hslots (c.size - 1) (by omega)).mpr (by omega)
      refine ⟨iff_of_true hnone hW0, ?_⟩
      intro f hf
      rw [hnone] at hf
      exact absurd hf (by simp)
    · have hm : 0 < W.length := List.length_pos.mpr hW0
      have hlt := latest_slot_lt_min c.size W.length hs hm
      have hne : ¬ getLatestCache c = none := by
        rw [hgl]
        intro hcontra
        have := (hslots _ (lt_of_lt_of_le hlt (min_le_right _ _))).mp hcontra
        omega
      refine ⟨iff_of_false hne hW0, ?_⟩
      intro f hf
      rw [hgl] at hf
      exact hmem _ _ hf
  have hB : ((getNextCache c).1 = none ↔ W = []) ∧
      (∀ f, (getNextCache c).1 = some f → f ∈ W) := by
    by_cases hcwq : c.readIndex = c.writeIndex
    · have hB0 : (getNextCache c).1 = getLatestCache c := by
        rw [getNext_caughtUp c hcwq]
      rw [hB0]
      exact hA
    · have hWne : ¬ W = [] := by
        intro h0
        have hm0 : W.length = 0 := by rw [h0]; rfl
        have h1 : c.readIndex ≤ 0 := by
          have := hrw (by omega)
          omega
        rw [hw, hm0, Nat.zero_mod] at hcwq
        exact hcwq (by omega)
      have hB0 : (getNextCache c).1 = c.frames.getD c.readIndex none := by
        rw [getNext_notCaught c hcwq]
      have hrmin : c.readIndex < min W.length c.size := by
        by_cases hms : W.length < c.size
        · have h2 := hrw hms
          have e : W.length % c.size = W.length := Nat.mod_eq_of_lt hms
          rw [hw, e] at hcwq
          omega
        · omega
      have hne : ¬ (getNextCache c).1 = none := by
        rw [hB0]
        intro hcontra
        have := (hslots _ (lt_of_lt_of_le hrmin (min_le_right _ _))).mp hcontra
        omega
      refine ⟨iff_of_false hne hWne, ?_⟩
      intro f hf
      rw [hB0] at hf
      exact hmem _ _ hf
  exact ⟨hA.1, hB.1, fun f hf => ⟨hA.2 f hf, hdata f (hA.2 f hf)⟩,
    fun f hf => ⟨hB.2 f hf, hdata f (hB.2 f hf)⟩⟩

set_option maxRecDepth 20000 in
/-- The C3 statement at capacity 2 after one validated write and one read. -/
theorem reads_nil_iff_no_write_witness :
    1 ≤ 2 ∧ (∀ f ∈ writtenFrames opsB, isValidJPEG f.Data = true) ∧
      NilIffNeverWritten (run (NewCameraCache 2) opsB) opsB :=
  ⟨by decide, by decide, reads_nil_iff_no_write 2 (by decide) opsB (by decide)⟩

/-- C4: a `FetchFrame` tick is atomic with respect to the cache — transport
error, bad status, empty body or invalid frame leave the cache completely
unchanged, and exactly on a validated 200 response one owned copy of the body
with the tick's timestamp is stored and `writeIndex` advances by one mod N. -/
theorem fetchFrame_atomic (fm : FrameManager) (name : String) (now : Nat) :
    FetchFrameContract fm name now := by
  refine ⟨rfl, ?_, ?_, ?_, ?_⟩
  · intro st body hst
    show FetchFrame fm name (FetchResult.response st body) now = some fm
    unfold FetchFrame
    dsimp only
    rw [if_pos hst]
  · intro st
    show FetchFrame fm name (FetchResult.response st []) now = some fm
    unfold FetchFrame
    dsimp only
    by_cases hst : st = 200
    · rw [if_neg (not_not_intro hst), if_pos (show ([] : List Nat).length = 0 from rfl)]
    · rw [if_pos hst]
  · intro st body hval
    show FetchFrame fm name (FetchResult.response st body) now = some fm
    unfold FetchFrame
    dsimp only
    by_cases hst : st = 200
    · rw [if_neg (not_not_intro hst)]
      by_cases hb : body.length = 0
      · rw [if_pos hb]
      · rw [if_neg hb, if_pos (by rw [hval]; exact Bool.false_ne_true)]
    · rw [if_pos hst]
  · intro body cache hval hlook
    show FetchFrame fm name (FetchResult.response 200 body) now = _
    unfold FetchFrame
    dsimp only
    have hb : ¬ body.length = 0 := by
      have := length_of_isValidJPEG hval
      omega
    rw [if_neg (not_not_intro rfl), if_neg hb, if_neg (not_not_intro hval), hlook]
    rfl

set_option maxRecDepth 20000 in
/-- One failing and one succeeding `FetchFrame` tick against the concrete
manager `fmB`, instantiating the C4 contract. -/
theorem fetchFrame_atomic_witness :
    FetchFrame fmB ("rua") (FetchResult.response 404 vbytes) 7 = some fmB ∧
    FetchFrame fmB ("rua") (FetchResult.response 200 vbytes) 7 =
      some (setCache fmB ("rua")
        { frames := (NewCameraCache 2).frames.set (NewCameraCache 2).writeIndex
            (some { Timestamp := 7, Data := vbytes }),
          writeIndex := ((NewCameraCache 2).writeIndex + 1) % (NewCameraCache 2).size,
          readIndex := (NewCameraCache 2).readIndex,
          size := (NewCameraCache 2).size }) :=
  ⟨(fetchFrame_atomic fmB ("rua") 7).2.1 404 vbytes (by decide),
   (fetchFrame_atomic fmB ("rua") 7).2.2.2.2 vbytes (NewCameraCache 2) (by decide) (by decide)⟩

/-- C10: for an unregistered camera name the two read accessors are total,
return nil and modify nothing, while `FetchFrame` requires registration as a
precondition — its validated-success path reads the map unguarded and
faults; for a registered camera `FetchFrame` is total on every outcome. -/
theorem unregistered_camera_safety (fm : FrameManager) (name : String) :
    UnregisteredContract fm name := by
  constructor
  · intro hnone
    refine ⟨?_, ?_, ?_⟩
    · unfold GetLatestFrame
      rw [hnone]
    · unfold GetNextFrame
      rw [hnone]
    · intro body now hval
      unfold FetchFrame
      dsimp only
      have hb : ¬ body.length = 0 := by
        have := length_of_isValidJPEG hval
        omega
      rw [if_neg (not_not_intro rfl), if_neg hb, if_neg (not_not_intro hval), hnone]
  · intro resp now cache hsome
    cases resp with
    | transportError => exact ⟨fm, rfl⟩
    | response st body =>
      show ∃ fm2, FetchFrame fm name (FetchResult.response st body) now = some fm2
      unfold FetchFrame
      dsimp only
      by_cases hst : ¬ st = 200
      · rw [if_pos hst]; exact ⟨fm, rfl⟩
      · rw [if_neg hst]
        by_cases hb : body.length = 0
        · rw [if_pos hb]; exact ⟨fm, rfl⟩
        · rw [if_neg hb]
          by_cases hv : ¬ isValidJPEG body = true
          · rw [if_pos hv]; exact ⟨fm, rfl⟩
          · rw [if_neg hv, hsome]
            exact ⟨_, rfl⟩

set_option maxRecDepth 20000 in
/-- The C10 contract exercised on the empty manager `fmE` and the registered
manager `fmB`. -/
theorem unregistered_camera_safety_witness :
    (GetLatestFrame fmE ("rua") = none ∧ GetNextFrame fmE ("rua") = (none, fmE) ∧
      FetchFrame fmE ("rua") (FetchResult.response 200 vbytes) 7 = none) ∧
    (∃ fm2, FetchFrame fmB ("rua") FetchResult.transportError 7 = some fm2) :=
  ⟨⟨((unregistered_camera_safety fmE ("rua")).1 (by decide)).1,
    ((unregistered_camera_safety fmE ("rua")).1 (by decide)).2.1,
    ((unregistered_camera_safety fmE ("rua")).1 (by decide)).2.2 vbytes 7 (by decide)⟩,
   (unregistered_camera_safety fmB ("rua")).2 FetchResult.transportError 7
     (NewCameraCache 2) (by decide)⟩

theorem getNext_frames (c : CameraCache) : ((getNextCache c).2).frames = c.frames := by
  by_cases h : c.readIndex = c.writeIndex
  · rw [getNext_caughtUp c h]
  · rw [getNext_notCaught c h]

theorem getD_some_mem {l : List (Option Frame)} {i : Nat} {f : Frame}
    (h : l.getD i none = some f) : some f ∈ l := by
  rw [List.getD_eq_getElem?_getD] at h
  cases hx : l[i]? with
  | none => rw [hx] at h; exact absurd h (by simp)
  | some x =>
    rw [hx] at h
    simp only [Option.getD_some] at h
    rw [h] at hx
    exact List.getElem?_mem hx

theorem notStored_applyOp (c : CameraCache) (v : Frame) (o : CacheOp)
    (h : NotStored c v) (ho : ∀ f, o = CacheOp.write f → ¬ f = v) :
    NotStored (applyOp c o) v := by
  cases o with
  | write f =>
    intro hmem
    rcases List.mem_or_eq_of_mem_set hmem with h1 | h1
    · exact h h1
    · refine ho f rfl ?_
      injection h1 with h2
      exact h2.symm
  | readNext =>
    show ¬ some v ∈ ((getNextCache c).2).frames
    rw [getNext_frames]
    exact h
  | readLatest => exact h

theorem runOutputs_not_stored (ops : List CacheOp) :
    ∀ (c : CameraCache) (v : Frame), NotStored c v →
      (∀ f, CacheOp.write f ∈ ops → ¬ f = v) →
      ∀ o ∈ runOutputs c ops, ¬ o = some v := by
  induction ops with
  | nil =>
    intro c v _ _ o ho
    exact absurd ho (by simp [runOutputs])
  | cons op rest ih =>
    intro c v h hw o ho
    rcases List.mem_cons.mp ho with he | htl
    · rw [he]
      cases op with
      | write f => simp [opOutput]
      | readNext =>
        intro hc
        apply h
        dsimp only [opOutput] at hc
        by_cases hq : c.readIndex = c.writeIndex
        · rw [getNext_caughtUp c hq] at hc
          exact getD_some_mem hc
        · rw [getNext_notCaught c hq] at hc
          exact getD_some_mem hc
      | readLatest =>
        intro hc
        dsimp only [opOutput, getLatestCache] at hc
        exact h (getD_some_mem hc)
    · exact ih (applyOp c op) v
        (notStored_applyOp c v op h
          (fun f hf => hw f (by rw [hf]; exact List.mem_cons_self _ _)))
        (fun f hf => hw f (List.mem_cons_of_mem _ hf)) o htl

/-- C8: after writing `N + 1` pairwise-fresh frames into a fresh capacity-N
cache, the first written frame sits in no slot (its slot 0 copy was
overwritten by the `(N+1)`-th write), so no subsequent sequence of reads —
and further writes of other frames — can ever return it. -/
theorem overwritten_frame_unobservable (N : Nat) (g : Nat → Frame) (hN : 1 ≤ N)
    (hdist : ∀ j, 1 ≤ j → j ≤ N → ¬ g j = g 0)
    (ops : List CacheOp) (hops : ∀ f, CacheOp.write f ∈ ops → ¬ f = g 0) :
    ∀ o ∈ runOutputs (writeMany (NewCameraCache N) ((List.range (N + 1)).map g)) ops,
      ¬ o = some (g 0) := by
  have hstate : writeMany (NewCameraCache N) ((List.range (N + 1)).map g) =
      writeFrame (writeMany (NewCameraCache N) ((List.range N).map g)) (g N) := by
    rw [List.range_succ, List.map_append, writeMany, List.foldl_append]
    rfl
  have hfresh := writeMany_fresh N ((List.range N).map g) (by simp)
  apply runOutputs_not_stored ops _ (g 0) ?_ hops
  rw [hstate, hfresh]
  unfold writeFrame
  dsimp only
  simp only [List.length_map, List.length_range, Nat.sub_self, List.replicate,
    List.append_nil, Nat.mod_self]
  intro hmem
  obtain ⟨i, hi⟩ := List.mem_iff_getElem?.mp hmem
  rw [List.getElem?_set] at hi
  by_cases hi0 : 0 = i
  · rw [if_pos hi0, if_pos (by simp; omega)] at hi
    simp only [Option.some.injEq] at hi
    exact hdist N hN (Nat.le_refl N) hi
  · rw [if_neg hi0, List.getElem?_map, List.getElem?_map] at hi
    cases hr : (List.range N)[i]? with
    | none => rw [hr] at hi; exact absurd hi (by simp)
    | some j =>
      rw [hr] at hi
      simp at hi
      have hiN : i < N := by
        by_contra hiN
        rw [List.getElem?_eq_none (by simpa using hiN)] at hr
        exact absurd hr (by simp)
      rw [List.getElem?_range hiN] at hr
      injection hr with hr2
      rw [← hr2] at hi
      exact hdist i (by omega) (by omega) hi

/-- The C8 statement at capacity 2 with three ordered writes and a
write-free tail of reads. -/
theorem overwritten_frame_unobservable_witness :
    1 ≤ 2 ∧ (∀ j, 1 ≤ j → j ≤ 2 → ¬ gFrames j = gFrames 0) ∧
      (∀ f, CacheOp.write f ∈ opsC → ¬ f = gFrames 0) ∧
      ∀ o ∈ runOutputs (writeMany (NewCameraCache 2) ((List.range 3).map gFrames)) opsC,
        ¬ o = some (gFrames 0) :=
  ⟨by decide,
   by
     intro j h1 h2
     interval_cases j <;> decide,
   by
     intro f hf
     exact absurd hf (by simp [opsC]),
   overwritten_frame_unobservable 2 gFrames (by decide)
     (by intro j h1 h2; interval_cases j <;> decide)
     opsC
     (by intro f hf; exact absurd hf (by simp [opsC]))⟩

/-- Counterexample to C6: the cache keeps ONE read cursor shared by all
stream servers.  In the state `cacheB` (two frames written, none read), the
first `GetNextFrame` — issued by one server — changes which frame the next
`GetNextFrame` on the same cache, issued by any other server, returns. -/
theorem shared_cursor_counterexample :
    ¬ (getNextCache ((getNextCache cacheB).2)).1 = (getNextCache cacheB).1 := by
  decide

/-- Amended C6: all readers of a camera share the cache's single read
cursor; one server's `GetNextFrame` advances it, so the next `GetNextFrame`
by whichever server returns the following slot, not the same frame again. -/
theorem shared_cursor_amended (c : CameraCache) (h : ¬ c.readIndex = c.writeIndex) :
    SharedCursorContract c := by
  constructor
  · rw [getNext_notCaught c h]
  · intro h2
    rw [getNext_notCaught c h]
    dsimp only
    rw [getNext_notCaught _ h2]

/-- The amended C6 contract at the concrete two-write state `cacheB`. -/
theorem shared_cursor_amended_witness :
    ¬ cacheB.readIndex = cacheB.writeIndex ∧ SharedCursorContract cacheB :=
  ⟨by decide, shared_cursor_amended cacheB (by decide)⟩

theorem emitFrame_fail (t d : List Nat) (o1 o2 o3 : Bool)
    (h : (o1 && o2 && o3) = false) : (emitFrame t d o1 o2 o3).2 = false := by
  cases o1 <;> cases o2 <;> cases o3 <;> simp_all [emitFrame]

/-- C9: for every emitted frame with payload `d`, the bytes written to the
client sink are exactly the boundary line, the content-type header, a
content-length header carrying the decimal byte length of `d`, a blank line,
`d` itself and a trailing CRLF (`specFramePart`); and a failure of any of the
three physical writes makes the streaming loop return at once, ignoring all
later iterations. -/
theorem emit_bytes_exact :
    (∀ t d, emitFrame t d true true true = (t ++ specFramePart d, true)) ∧
    (∀ t d o1 o2 o3, (o1 && o2 && o3) = false → (emitFrame t d o1 o2 o3).2 = false) ∧
    (∀ fm name t inp rest f fm2, GetNextFrame fm name = (some f, fm2) →
      inp.ctxDone = false → (inp.ok1 && inp.ok2 && inp.ok3) = false →
      streamLoop fm name t (inp :: rest) =
        (emitFrame t f.Data inp.ok1 inp.ok2 inp.ok3).1) := by
  refine ⟨?_, emitFrame_fail, ?_⟩
  · intro t d
    simp [emitFrame, specFramePart, headerBuf, List.append_assoc]
  · intro fm name t inp rest f fm2 hget hdone hfail
    show streamLoop fm name t (inp :: rest) = _
    simp only [streamLoop]
    rw [if_neg (by simp [hdone]), hget]
    dsimp only
    rw [if_pos (emitFrame_fail t f.Data inp.ok1 inp.ok2 inp.ok3 hfail)]

/-- The C9 loop-termination statement at a concrete manager, a failing
iteration and a discarded later iteration. -/
theorem emit_bytes_exact_witness :
    GetNextFrame fmC ("rua") =
        (some { Timestamp := 1, Data := [1] }, setCache fmC ("rua") (getNextCache cacheA).2) ∧
      inpFail.ctxDone = false ∧ (inpFail.ok1 && inpFail.ok2 && inpFail.ok3) = false ∧
      streamLoop fmC ("rua") [] [inpFail, inpOk] =
        (emitFrame [] [1] inpFail.ok1 inpFail.ok2 inpFail.ok3).1 :=
  ⟨by decide, by decide, by decide,
   emit_bytes_exact.2.2 fmC ("rua") [] inpFail [inpOk]
     { Timestamp := 1, Data := [1] } (setCache fmC ("rua") (getNextCache cacheA).2)
     (by decide) (by decide) (by decide)⟩
